import Mathlib

/-
Verification of the stock pair returns calculator (src/app.py).

Modelling conventions:
  * Calendar dates are epoch-day integers (`Int`); day 0 stands for
    1970-01-01, a Thursday, so `weekday d = (d + 3) % 7` with Monday = 0
    matches Python's `date.weekday()`.
  * Prices and returns are exact rationals (`Rat`).  numpy `float64`
    division is total and never raises (division by zero yields an
    infinity or NaN silently), which `Rat`'s total division (where
    `q / 0 = 0`) mirrors at the level of "no error path exists"; native
    Python float division, which raises `ZeroDivisionError` on a zero
    divisor, is modelled by `pyDiv` returning `Option Rat` with `none`
    for the raised exception.
  * Unbounded `while` loops are modelled with an explicit fuel
    parameter; `none` means the loop has not terminated within `fuel`
    iterations, and a statement proved for every fuel value expresses
    divergence.
-/

namespace StockPairReturns

/-! ## Trading-day resolution: get_closest_date (src/app.py lines 29-35) -/

/-- Loop body of `get_closest_date`:
`while date not in data.index: date -= timedelta(days=1)`.
The date steps BACKWARD one day at a time until it is a member of the
index; `none` means the loop did not terminate within `fuel` steps. -/
def gcdGo (idx : List Int) : Nat → Int → Option Int
  | 0, _ => none
  | fuel + 1, d => if d ∈ idx then some d else gcdGo idx fuel (d - 1)

/-- Embedding of `get_closest_date(date)`:
`if date > data.index[-1]: return data.index[-1]` then the backward
stepping loop.  `data.index[-1]` on an empty index raises `IndexError`,
modelled by `none` on the empty list. -/
def get_closest_date (idx : List Int) (fuel : Nat) (d : Int) : Option Int :=
  match idx.getLast? with
  | none => none
  | some last => if last < d then some last else gcdGo idx fuel d

/-- Modelled from the spec: the canonical Trading-Day Resolver rule of
section 4.1, which clamps a target beyond the last date and otherwise
steps FORWARD one day at a time until a date present in the series is
found.  This definition follows the spec's words and exists only to be
compared with `get_closest_date`, which is taken from the source. -/
def gcdSpecGo (idx : List Int) : Nat → Int → Option Int
  | 0, _ => none
  | fuel + 1, d => if d ∈ idx then some d else gcdSpecGo idx fuel (d + 1)

/-- Modelled from the spec: wrapper of the forward-stepping rule with the
same clamp-to-last behaviour for targets past the series end. -/
def get_closest_date_spec (idx : List Int) (fuel : Nat) (d : Int) : Option Int :=
  match idx.getLast? with
  | none => none
  | some last => if last < d then some last else gcdSpecGo idx fuel d

/-! ## Price series and the return calculator (src/app.py lines 22-67) -/

/-- One row of the fetched price table.  The adjusted-close value is
meaningful only when the surrounding series carries that column. -/
structure PriceRow where
  date : Int
  close : Rat
  adjClose : Rat
deriving DecidableEq

/-- A fetched price series.  `hasAdjClose` records whether the
`'Adj Close'` column is present (`price_column = 'Adj Close' if
'Adj Close' in data.columns else 'Close'`, line 27, is a per-series
choice, not a per-row one). -/
structure PriceSeries where
  hasAdjClose : Bool
  rows : List PriceRow
deriving DecidableEq

/-- The date index of a price series (`data.index`). -/
def dates (s : PriceSeries) : List Int :=
  s.rows.map (fun r => r.date)

/-- The selected price field of a row: adjusted close when the series has
that column, raw close otherwise (line 27). -/
def priceOf (s : PriceSeries) (r : PriceRow) : Rat :=
  if s.hasAdjClose then r.adjClose else r.close

/-- Embedding of `data.loc[date][price_column]`: `none` models the
`KeyError` raised when the date is absent from the index. -/
def lookupPrice (s : PriceSeries) (d : Int) : Option Rat :=
  (s.rows.find? (fun r => r.date == d)).map (priceOf s)

/-- Native Python float division, which raises `ZeroDivisionError` on a
zero divisor (`none`). -/
def pyDiv (a b : Rat) : Option Rat :=
  if b = 0 then none else some (a / b)

/-- Embedding of `calculate_change(end_date)` (lines 37-41): resolve both
dates with `get_closest_date`, read the selected price column, and return
`((end_price - start_price) / start_price) * 100`.  The division here is
numpy `float64` division, which never raises (a zero `start_price`
silently yields an infinity); correspondingly the embedding has no error
outcome for it, `Rat`'s total division supplying a junk value at zero. -/
def calculate_change (s : PriceSeries) (fuel : Nat) (startDate endDate : Int) : Option Rat := do
  let rs ← get_closest_date (dates s) fuel startDate
  let re ← get_closest_date (dates s) fuel endDate
  let startPrice ← lookupPrice s rs
  let endPrice ← lookupPrice s re
  pure (((endPrice - startPrice) / startPrice) * 100)

/-- The two arguments of the floating-point power in `calculate_cagr`:
the returned value is `(base ** exponent - 1) * 100`.  Real
exponentiation is kept symbolic — the claims under scrutiny concern which
prices and which day count feed the power, not its numeric value. -/
structure CagrExpr where
  base : Rat
  exponent : Rat
deriving DecidableEq

/-- Embedding of `calculate_cagr()` (lines 43-49): prices are read at the
RESOLVED start date and resolved today, but `num_years` is computed from
the raw requested `start_date` and the raw `today`
(`num_years = (end_date_ts - start_date_ts).days / 365.25`), and the
exponent is the native-float division `1 / num_years`, which raises
`ZeroDivisionError` when the two raw dates coincide. -/
def calculate_cagr (s : PriceSeries) (fuel : Nat) (startDate today : Int) : Option CagrExpr := do
  let rs ← get_closest_date (dates s) fuel startDate
  let re ← get_closest_date (dates s) fuel today
  let startPrice ← lookupPrice s rs
  let endPrice ← lookupPrice s re
  let numYears : Rat := ((today - startDate : Int) : Rat) / (1461 / 4 : Rat)
  let e ← pyDiv 1 numYears
  pure ⟨endPrice / startPrice, e⟩

/-- Modelled from the spec: CAGR as
`((end_price/start_price)^(365.25/days_elapsed) - 1) * 100` where
`days_elapsed` is the span between the RESOLVED start and end dates.
This follows the spec's words and exists only to be compared with
`calculate_cagr`, which is taken from the source. -/
def calculate_cagr_spec (s : PriceSeries) (fuel : Nat) (startDate today : Int) : Option CagrExpr := do
  let rs ← get_closest_date (dates s) fuel startDate
  let re ← get_closest_date (dates s) fuel today
  let startPrice ← lookupPrice s rs
  let endPrice ← lookupPrice s re
  let e ← pyDiv (1461 / 4 : Rat) (((re - rs : Int) : Rat))
  pure ⟨endPrice / startPrice, e⟩

example : get_closest_date [0, 3] 5 2 = some 0 := by decide
example : get_closest_date_spec [0, 3] 5 2 = some 3 := by decide
example : get_closest_date [0, 3] 5 7 = some 3 := by decide
example : get_closest_date [0, 3] 2 (-1) = none := by decide

/-! ## Portfolio aggregation of per-horizon differences (src/app.py lines 175-199) -/

/-- The four horizons aggregated in `total_returns`
(`{"One Month": 0, "Three Months": 0, "One Year": 0, "CAGR": 0}`). -/
inductive Horizon
  | oneMonth
  | threeMonths
  | oneYear
  | cagr
deriving DecidableEq

/-- Embedding of
`difference = {period: long_results[period] - short_results[period] ...}`
(line 183) for one pair. -/
def difference (longResults shortResults : Horizon → Rat) : Horizon → Rat :=
  fun h => longResults h - shortResults h

/-- Embedding of the accumulation loop (lines 196-199): for each pair the
code executes `total_returns[period] += difference[period] / num_pairs`
with `num_pairs = len(pairs)`, starting from 0.  `diffs` holds one
per-pair difference map per submitted pair. -/
def total_returns (diffs : List (Horizon → Rat)) (h : Horizon) : Rat :=
  diffs.foldl (fun acc d => acc + d h / (diffs.length : Rat)) 0

/-! ## Portfolio volatility (src/app.py lines 109-148)

A pair spread series is a list of `(date, spread return)` entries, the
`Pair_Returns` column after the inner merge and `dropna` (lines 124-131).
`pd.concat(returns, axis=1)` outer-joins the series on dates, and
`returns_df.cov()` computes each covariance entry pairwise over the rows
where BOTH columns are non-null, yielding NaN when fewer than two such
rows exist.  NaN is modelled as `none`, and the `np.dot` products
propagate it. -/

/-- Arithmetic mean of a column (`pandas` uses the mean of exactly the
pairwise-complete sample when forming a covariance entry). -/
def colMean (xs : List Rat) : Rat :=
  xs.sum / (xs.length : Rat)

/-- The rows where both series have a value: for each entry of `s` whose
date also occurs in `t`, the pair of values.  This is the
pairwise-complete sample that `DataFrame.cov` uses for one entry of the
covariance matrix after the outer join of `pd.concat`. -/
def commonRows (s t : List (Int × Rat)) : List (Rat × Rat) :=
  s.filterMap (fun p => (t.lookup p.1).map (fun y => (p.2, y)))

/-- Sample covariance (ddof = 1, the `DataFrame.cov` default) of a paired
sample; NaN (`none`) when the sample has fewer than two rows (the 0/0 or
empty-sum case in pandas). -/
def sampleCov (rows : List (Rat × Rat)) : Option Rat :=
  if 2 ≤ rows.length then
    some (((rows.map (fun r =>
      (r.1 - colMean (rows.map Prod.fst)) * (r.2 - colMean (rows.map Prod.snd)))).sum)
      / ((rows.length : Rat) - 1))
  else none

/-- Entry `(i, j)` of `cov_matrix = returns_df.cov()` (line 138). -/
def cov_matrix (ss : List (List (Int × Rat))) (i j : Nat) : Option Rat :=
  sampleCov (commonRows (ss.getD i []) (ss.getD j []))

/-- NaN-propagating addition of float values (`none` is NaN). -/
def oAdd : Option Rat → Option Rat → Option Rat
  | some a, some b => some (a + b)
  | _, _ => none

/-- NaN-propagating scalar multiplication (`none` is NaN; in IEEE
arithmetic NaN times any weight is NaN). -/
def oSmul (c : Rat) : Option Rat → Option Rat
  | some a => some (c * a)
  | none => none

/-- Embedding of lines 141-144: equal weights `1 / len(pairs)` and
`port_variance = np.dot(weights.T, np.dot(cov_matrix, weights))`, i.e.
the double dot product over all covariance entries, with NaN propagated.
Each element of `ss` is one pair's spread series. -/
def port_variance (ss : List (List (Int × Rat))) : Option Rat :=
  let n := ss.length
  let w : Rat := 1 / (n : Rat)
  (List.range n).foldl
    (fun acc i =>
      oAdd acc (oSmul w
        ((List.range n).foldl (fun acc2 j => oAdd acc2 (oSmul w (cov_matrix ss i j)))
          (some 0))))
    (some 0)

/-- Modelled from the spec: sample covariance of two aligned value
columns directly, without any join. -/
def sampleCovVals (xs ys : List Rat) : Rat :=
  (((xs.zip ys).map (fun p => (p.1 - colMean xs) * (p.2 - colMean ys))).sum)
    / ((xs.length : Rat) - 1)

/-- Modelled from the spec: the covariance matrix `Cov` of the N aligned
Pair Spread Series, indexed by pair numbers. -/
def cov_spec (cols : List (List Rat)) (i j : Nat) : Rat :=
  sampleCovVals (cols.getD i []) (cols.getD j [])

/-- Modelled from the spec: the quadratic form `wᵀ·Cov·w` with the
equal-weight vector `w = (1/N, ..., 1/N)`, written as an iterated sum.
The spec's portfolio volatility is `sqrt` of this value times
`sqrt 252 * 100`. -/
def port_variance_spec (cols : List (List Rat)) : Rat :=
  let n := cols.length
  let w : Rat := 1 / (n : Rat)
  ((List.range n).map (fun i =>
    w * ((List.range n).map (fun j => w * cov_spec cols i j)).sum)).sum

example : port_variance [[(0, 0), (1, 1)], [(0, 1), (1, 0)]] = some 0 := by
  with_unfolding_all decide
example : port_variance [[(0, 1), (1, 2)], [(2, 1), (3, 3)]] = none := by
  with_unfolding_all decide

/-! ## Global start-date adjustment (src/app.py lines 70-83, 172) -/

/-- Python `date.weekday()` (Monday = 0, ..., Sunday = 6) for an
epoch-day integer; day 0 (1970-01-01) is a Thursday. -/
def weekday (d : Int) : Int :=
  (d + 3) % 7

/-- The loop `while date.weekday() > 4: date += timedelta(days=1)`
(lines 74-75).  It provably needs at most two iterations, so the fixed
fuel of 7 never runs out. -/
def skipWeekendGo : Nat → Int → Int
  | 0, d => d
  | fuel + 1, d => if 4 < weekday d then skipWeekendGo fuel (d + 1) else d

/-- The weekend-skipping loop with its (always sufficient) fuel. -/
def skipWeekend (d : Int) : Int :=
  skipWeekendGo 7 d

/-- The loop of lines 79-81: step forward one day at a time until the
history of the probed ticker contains the date.  `hist d = true` states
that the ticker traded on day `d`; `none` means the loop has not found a
trading day within `fuel` steps (the real loop would keep fetching
forever). -/
def advanceToTradingGo (hist : Int → Bool) : Nat → Int → Option Int
  | 0, _ => none
  | fuel + 1, d => if hist d then some d else advanceToTradingGo hist fuel (d + 1)

/-- The ticker symbol hardcoded in `adjust_date_to_trading_day`
(`stock = yf.Ticker("AAPL")`, line 77). -/
def aaplTicker : String :=
  "AAPL"

/-- Embedding of `adjust_date_to_trading_day(date)` (lines 70-83):
first skip weekend days forward, then advance to a day present in the
history of the HARDCODED ticker AAPL.  `history` gives each ticker's
trading calendar. -/
def adjust_date_to_trading_day (history : String → Int → Bool) (fuel : Nat) (d : Int) : Option Int :=
  advanceToTradingGo (history aaplTicker) fuel (skipWeekend d)

/-- Embedding of line 172: inside `main`, after the form submission with
`pairs` and the chosen start date, the adjusted start date is computed as
`adjust_date_to_trading_day(start_date_str)`; the submitted pairs are in
scope but do not reach the adjustment. -/
def main_adjusted_start_date (history : String → Int → Bool) (fuel : Nat)
    (_pairs : List (String × String)) (d : Int) : Option Int :=
  adjust_date_to_trading_day history fuel d

/-! ## Lemmas about the backward-stepping loop -/

/-- Whatever the backward loop returns is a member of the index and does
not exceed the starting target. -/
theorem gcdGo_some {idx : List Int} {fuel : Nat} {d r : Int}
    (h : gcdGo idx fuel d = some r) : r ∈ idx ∧ r ≤ d := by
  induction fuel generalizing d with
  | zero => simp [gcdGo] at h
  | succ n ih =>
    by_cases hd : d ∈ idx
    · simp [gcdGo, hd] at h
      exact ⟨h ▸ hd, le_of_eq h.symm⟩
    · simp only [gcdGo, if_neg hd] at h
      obtain ⟨h1, h2⟩ := ih h
      exact ⟨h1, by omega⟩

/-- If the target is strictly below every member of the index, the
backward loop makes no progress towards membership: it returns nothing
for EVERY fuel bound, i.e. the `while` loop diverges. -/
theorem gcdGo_below {idx : List Int} (fuel : Nat) :
    ∀ d : Int, (∀ x ∈ idx, d < x) → gcdGo idx fuel d = none := by
  induction fuel with
  | zero => intro d _; rfl
  | succ n ih =>
    intro d h
    have hd : d ∉ idx := fun hm => lt_irrefl d (h d hm)
    simp only [gcdGo, if_neg hd]
    exact ih (d - 1) (fun x hx => by have := h x hx; omega)

/-- With some member of the index at or below the target and enough fuel,
the backward loop returns precisely the greatest index member that is at
or below the target. -/
theorem gcdGo_greatest {idx : List Int} (fuel : Nat) :
    ∀ d x : Int, x ∈ idx → x ≤ d → (d - x).toNat < fuel →
      ∃ r, gcdGo idx fuel d = some r ∧ r ∈ idx ∧ r ≤ d ∧ ∀ y ∈ idx, y ≤ d → y ≤ r := by
  induction fuel with
  | zero => intro d x _ _ hf; exact absurd hf (Nat.not_lt_zero _)
  | succ n ih =>
    intro d x hx hxd hf
    by_cases hd : d ∈ idx
    · exact ⟨d, by simp [gcdGo, hd], hd, le_refl d, fun y _ hy => hy⟩
    · have hxd' : x ≤ d - 1 := by
        rcases eq_or_lt_of_le hxd with he | hlt
        · exact absurd (he ▸ hx) hd
        · omega
      have hf' : (d - 1 - x).toNat < n := by omega
      obtain ⟨r, h1, h2, h3, h4⟩ := ih (d - 1) x hx hxd' hf'
      refine ⟨r, ?_, h2, by omega, ?_⟩
      · simp only [gcdGo, if_neg hd]
        exact h1
      · intro y hy hyd
        have hne : y ≠ d := fun he => hd (he ▸ hy)
        exact h4 y hy (by omega)

/-! ## Claim theorems: trading-day resolution -/

/-- C8 (confirmed): for every non-empty price series, whenever
`get_closest_date` returns a date, that date never exceeds the series'
last date, and it is present in the series unless it equals that last
date (the code in fact always returns a member of the series, which is
stronger). -/
theorem get_closest_date_sound (idx : List Int) (fuel : Nat) (d r : Int)
    (hne : idx ≠ []) (hres : get_closest_date idx fuel d = some r) :
    ∃ last, idx.getLast? = some last ∧ r ≤ last ∧ (r ∈ idx ∨ r = last) := by
  have hlast := List.getLast?_eq_getLast_of_ne_nil hne
  refine ⟨idx.getLast hne, hlast, ?_⟩
  simp only [get_closest_date, hlast] at hres
  by_cases hc : idx.getLast hne < d
  · rw [if_pos hc] at hres
    have hr : idx.getLast hne = r := Option.some_injective _ hres
    exact ⟨le_of_eq hr.symm, Or.inr hr.symm⟩
  · rw [if_neg hc] at hres
    obtain ⟨h1, h2⟩ := gcdGo_some hres
    exact ⟨le_trans h2 (not_lt.mp hc), Or.inl h1⟩

/-- Witness for C8 at the series with trading days 0 and 3 and the
in-range target 2, which resolves to 0. -/
theorem get_closest_date_sound_witness :
    ∃ last, List.getLast? [(0 : Int), 3] = some last ∧ (0 : Int) ≤ last ∧
      ((0 : Int) ∈ [(0 : Int), 3] ∨ (0 : Int) = last) :=
  get_closest_date_sound [0, 3] 5 2 0 (by decide) (by decide)

/-- C9 (confirmed): for a target date strictly earlier than every date in
the series, the backward one-day stepping loop of `get_closest_date`
never finds a member, so the call does not terminate: for every fuel
bound the loop is still running (`none`). -/
theorem get_closest_date_diverges_below_series (idx : List Int) (d : Int)
    (hne : idx ≠ []) (hlt : ∀ x ∈ idx, d < x) :
    ∀ fuel, get_closest_date idx fuel d = none := by
  intro fuel
  have hlast := List.getLast?_eq_getLast_of_ne_nil hne
  have hmem : idx.getLast hne ∈ idx := List.getLast_mem hne
  simp only [get_closest_date, hlast]
  rw [if_neg (not_lt.mpr (le_of_lt (hlt _ hmem)))]
  exact gcdGo_below fuel d hlt

/-- Witness for C9: with trading days 5 and 6 and target 0, no amount of
fuel makes the resolver answer; instantiated at fuel 100. -/
theorem get_closest_date_diverges_below_series_witness :
    get_closest_date [(5 : Int), 6] 100 0 = none :=
  get_closest_date_diverges_below_series [5, 6] 0 (by decide) (by decide) 100

/-- C1 counterexample: a weekend target between two trading days.  With
epoch day 0 a Thursday, day 8 is a Friday, day 9 a Saturday and day 11 a
Monday.  On the series with trading days {8, 11} and target 9 the code's
resolver steps BACKWARD to Friday 8, while the spec's forward-stepping
rule (modelled by `get_closest_date_spec`) reaches Monday 11, so the
claimed forward behaviour is false of the code. -/
theorem get_closest_date_counterexample :
    get_closest_date [8, 11] 5 9 = some 8 ∧
    get_closest_date_spec [8, 11] 5 9 = some 11 ∧
    get_closest_date [8, 11] 5 9 ≠ get_closest_date_spec [8, 11] 5 9 := by
  decide

/-- C1 (amended): for every non-empty price series and target date, the
resolver clamps a target past the series' last date to that last date,
and otherwise steps BACKWARD one day at a time until a date present in
the series is found — it returns the greatest series date at or below
the target, so a weekend start resolves to the PREVIOUS business day
present in the series (never stepping past the series' maximum, which
only the clamp can return). -/
theorem get_closest_date_clamps_and_steps_backward
    (idx : List Int) (fuel : Nat) (d last x : Int)
    (hlast : idx.getLast? = some last)
    (hx : x ∈ idx) (hxd : x ≤ d) (hfuel : (d - x).toNat < fuel) :
    (last < d → get_closest_date idx fuel d = some last) ∧
    (d ≤ last → ∃ r, get_closest_date idx fuel d = some r ∧ r ∈ idx ∧ r ≤ d ∧
      ∀ y ∈ idx, y ≤ d → y ≤ r) := by
  constructor
  · intro hc
    simp only [get_closest_date, hlast]
    rw [if_pos hc]
  · intro hc
    obtain ⟨r, h1, h2, h3, h4⟩ := gcdGo_greatest fuel d x hx hxd hfuel
    refine ⟨r, ?_, h2, h3, h4⟩
    simp only [get_closest_date, hlast]
    rw [if_neg (not_lt.mpr hc)]
    exact h1

/-- Witness for the amended C1 at the weekend example: series {8, 11},
Saturday target 9, member 8 at or below it. -/
theorem get_closest_date_clamps_and_steps_backward_witness :
    ((11 : Int) < 9 → get_closest_date [8, 11] 5 9 = some 11) ∧
    ((9 : Int) ≤ 11 → ∃ r, get_closest_date [8, 11] 5 9 = some r ∧
      r ∈ [(8 : Int), 11] ∧ r ≤ 9 ∧ ∀ y ∈ [(8 : Int), 11], y ≤ 9 → y ≤ r) :=
  get_closest_date_clamps_and_steps_backward [8, 11] 5 9 11 8
    (by decide) (by decide) (by decide) (by decide)

/-! ## Claim theorems: global start-date adjustment -/

/-- The forward loop of `adjust_date_to_trading_day` depends only on the
pointwise behaviour of the probed ticker's calendar. -/
theorem advanceToTradingGo_congr {f g : Int → Bool} (h : ∀ x, f x = g x) :
    ∀ (fuel : Nat) (d : Int), advanceToTradingGo f fuel d = advanceToTradingGo g fuel d := by
  intro fuel
  induction fuel with
  | zero => intro d; rfl
  | succ n ih =>
    intro d
    simp only [advanceToTradingGo, h d]
    by_cases hg : g d = true
    · simp [hg]
    · simp [hg, ih (d + 1)]

/-- C10 (confirmed): the start-date adjustment applied to every
submission decides trading-day validity against the hardcoded ticker
AAPL: two market environments that agree on AAPL's calendar, even with
entirely different submitted pairs, yield the same adjusted start date
for every input date. -/
theorem main_adjusted_start_date_depends_only_on_AAPL
    (h1 h2 : String → Int → Bool) (fuel : Nat)
    (ps1 ps2 : List (String × String)) (d : Int)
    (h : ∀ x, h1 aaplTicker x = h2 aaplTicker x) :
    main_adjusted_start_date h1 fuel ps1 d = main_adjusted_start_date h2 fuel ps2 d := by
  unfold main_adjusted_start_date adjust_date_to_trading_day
  exact advanceToTradingGo_congr h fuel (skipWeekend d)

/-- Witness for C10: two environments agreeing on AAPL but differing on
every other ticker, with different submitted pairs, adjust day 4 alike. -/
theorem main_adjusted_start_date_depends_only_on_AAPL_witness :
    main_adjusted_start_date (fun t d => if t = aaplTicker then d % 2 == 0 else true) 3
      [("MSFT", "GOOG")] 4 =
    main_adjusted_start_date (fun t d => if t = aaplTicker then d % 2 == 0 else false) 3
      [("TSLA", "NVDA"), ("AMD", "INTC")] 4 :=
  main_adjusted_start_date_depends_only_on_AAPL _ _ 3 _ _ 4 (fun _ => rfl)

/-! ## Claim theorems: return calculator -/

/-- C2 (confirmed): once both dates are resolved on the series and the
rows at the resolved dates are found, `calculate_change` returns exactly
`(end_price - start_price) / start_price * 100`, where each price is the
adjusted-close field when the series has that column and the raw close
otherwise. -/
theorem calculate_change_formula
    (s : PriceSeries) (fuel : Nat) (d1 d2 r1 r2 : Int) (row1 row2 : PriceRow)
    (h1 : get_closest_date (dates s) fuel d1 = some r1)
    (h2 : get_closest_date (dates s) fuel d2 = some r2)
    (hf1 : s.rows.find? (fun r => r.date == r1) = some row1)
    (hf2 : s.rows.find? (fun r => r.date == r2) = some row2)
    (h0 : (if s.hasAdjClose then row1.adjClose else row1.close) ≠ 0) :
    calculate_change s fuel d1 d2 =
      some ((((if s.hasAdjClose then row2.adjClose else row2.close) -
              (if s.hasAdjClose then row1.adjClose else row1.close)) /
             (if s.hasAdjClose then row1.adjClose else row1.close)) * 100) := by
  simp [calculate_change, h1, h2, lookupPrice, hf1, hf2, priceOf]

/-- Witness for C2: a series carrying the adjusted-close column, whose
adjusted prices 4 and 6 on days 0 and 1 give a 50% change. -/
theorem calculate_change_formula_witness :
    calculate_change ⟨true, [⟨0, 5, 4⟩, ⟨1, 7, 6⟩]⟩ 3 0 1 =
      some ((((if (true : Bool) then (6 : Rat) else 7) -
              (if (true : Bool) then (4 : Rat) else 5)) /
             (if (true : Bool) then (4 : Rat) else 5)) * 100) :=
  calculate_change_formula ⟨true, [⟨0, 5, 4⟩, ⟨1, 7, 6⟩]⟩ 3 0 1 0 1 ⟨0, 5, 4⟩ ⟨1, 7, 6⟩
    (by decide) (by decide) (by decide) (by decide) (by norm_num)

/-- The degenerate series of C3: the close price on the resolved start
day 0 is zero (no adjusted-close column). -/
def zeroStartSeries : PriceSeries :=
  ⟨false, [⟨0, 0, 0⟩, ⟨1, 5, 5⟩]⟩

/-- C3 (code bug): with a zero start price, `calculate_change` does NOT
fail: the division is numpy `float64` division, which silently yields an
infinity, so the function returns a value.  In the embedding, whose total
rational division returns the junk value 0 at a zero divisor, the call
evaluates to `some 0` — the essential point being `some _` (a returned
value) where the claim demands a `DivisionByZero` failure. -/
theorem calculate_change_zero_start_returns_value :
    calculate_change zeroStartSeries 3 0 1 = some ((5 - 0) / 0 * 100) := by
  with_unfolding_all decide

/-! ## Claim theorems: CAGR -/

/-- Series for the C4 counterexample: trading days 1 and 10 only. -/
def cagrExampleSeries : PriceSeries :=
  ⟨false, [⟨1, 100, 100⟩, ⟨10, 200, 200⟩]⟩

/-- C4 counterexample: requesting start 2 with today 12 resolves the
prices to days 1 and 10 (a 9-day resolved span), but the code computes
the exponent from the RAW dates, `365.25 / (12 - 2)`, where the claim's
formula demands `365.25 / 9`; the two CAGR expressions differ. -/
theorem calculate_cagr_counterexample :
    calculate_cagr cagrExampleSeries 5 2 12 ≠ calculate_cagr_spec cagrExampleSeries 5 2 12 := by
  with_unfolding_all decide

/-- C4 (amended): the CAGR is
`((end_price/start_price)^(365.25/days_elapsed) - 1) * 100` where
`days_elapsed` is the span between the RAW requested start date and RAW
today — not between the resolved dates — while the two prices are read at
the resolved dates; and there is no explicit zero guard: a zero raw span
reaches the native float division `1 / 0.0`, which raises
`ZeroDivisionError` (the call fails by dividing, not by a guard). -/
theorem calculate_cagr_formula
    (s : PriceSeries) (fuel : Nat) (startDate today r1 r2 : Int) (p1 p2 : Rat)
    (h1 : get_closest_date (dates s) fuel startDate = some r1)
    (h2 : get_closest_date (dates s) fuel today = some r2)
    (hp1 : lookupPrice s r1 = some p1)
    (hp2 : lookupPrice s r2 = some p2) :
    (today ≠ startDate →
      calculate_cagr s fuel startDate today =
        some ⟨p2 / p1, (1461 / 4 : Rat) / ((today - startDate : Int) : Rat)⟩) ∧
    (today = startDate → calculate_cagr s fuel startDate today = none) := by
  constructor
  · intro hne
    have hz : (today : Rat) - (startDate : Rat) ≠ 0 := by
      rw [sub_ne_zero]
      exact_mod_cast hne
    simp [calculate_cagr, h1, h2, hp1, hp2, pyDiv, one_div_div, hz]
  · intro he
    simp [calculate_cagr, h1, h2, hp1, hp2, pyDiv, he]

/-- Witness for the amended C4 at the counterexample series: raw span
12 − 2 = 10 feeds the exponent. -/
theorem calculate_cagr_formula_witness :
    ((12 : Int) ≠ 2 →
      calculate_cagr cagrExampleSeries 5 2 12 =
        some ⟨(200 : Rat) / 100, (1461 / 4 : Rat) / (((12 : Int) - 2 : Int) : Rat)⟩) ∧
    ((12 : Int) = 2 → calculate_cagr cagrExampleSeries 5 2 12 = none) :=
  calculate_cagr_formula cagrExampleSeries 5 2 12 1 10 100 200
    (by decide) (by decide) (by with_unfolding_all decide) (by with_unfolding_all decide)

/-! ## Claim theorems: portfolio average of per-pair differences -/

/-- Accumulating `acc + d h / c` over a list is adding the sum of the
mapped values divided by `c`. -/
theorem foldl_add_div (h : Horizon) (c : Rat) :
    ∀ (l : List (Horizon → Rat)) (a : Rat),
      l.foldl (fun acc d => acc + d h / c) a = a + (l.map (fun d => d h)).sum / c := by
  intro l
  induction l with
  | nil => intro a; simp
  | cons d l ih =>
    intro a
    simp only [List.foldl_cons, ih, List.map_cons, List.sum_cons]
    ring

/-- C5 (confirmed): for any N ≥ 1 pairs and each horizon, the
portfolio-level accumulated value equals the arithmetic mean — the sum of
the per-pair differences for that horizon with equal weight 1/N. -/
theorem total_returns_is_mean (diffs : List (Horizon → Rat)) (h : Horizon)
    (hN : 1 ≤ diffs.length) :
    total_returns diffs h = (diffs.map (fun d => d h)).sum / (diffs.length : Rat) := by
  unfold total_returns
  rw [foldl_add_div h _ diffs 0, zero_add]

/-- Witness for C5 with two pairs whose per-horizon differences are the
constant maps 10 and 20. -/
theorem total_returns_is_mean_witness :
    total_returns [fun _ : Horizon => (10 : Rat), fun _ : Horizon => 20] Horizon.oneMonth =
      (([fun _ : Horizon => (10 : Rat), fun _ : Horizon => 20].map
        (fun d => d Horizon.oneMonth)).sum) /
        (([fun _ : Horizon => (10 : Rat), fun _ : Horizon => 20].length : Rat)) :=
  total_returns_is_mean [fun _ : Horizon => 10, fun _ : Horizon => 20] Horizon.oneMonth
    (by decide)

/-! ## Claim theorems: portfolio volatility -/

/-- With identical duplicate-free date columns, the pairwise-complete
sample left by the outer join is exactly the row-wise pairing of the two
value columns. -/
theorem commonRows_aligned :
    ∀ (s t : List (Int × Rat)), s.map Prod.fst = t.map Prod.fst →
      (s.map Prod.fst).Nodup →
      commonRows s t = (s.map Prod.snd).zip (t.map Prod.snd) := by
  intro s
  induction s with
  | nil =>
    intro t ht _
    cases t with
    | nil => rfl
    | cons q t' => simp at ht
  | cons p s' ih =>
    intro t ht hnd
    obtain ⟨d, x⟩ := p
    cases t with
    | nil => simp at ht
    | cons q t' =>
      obtain ⟨e, y⟩ := q
      simp only [List.map_cons, List.cons.injEq] at ht
      obtain ⟨hde, ht'⟩ := ht
      subst hde
      simp only [List.map_cons, List.nodup_cons] at hnd
      obtain ⟨hdnot, hnd'⟩ := hnd
      have hhead : ((d, y) :: t').lookup d = some y := by simp [List.lookup]
      have htail : s'.filterMap (fun p => (((d, y) :: t').lookup p.1).map (fun z => (p.2, z))) =
          s'.filterMap (fun p => (t'.lookup p.1).map (fun z => (p.2, z))) := by
        apply List.filterMap_congr
        intro p hp
        have hpd : p.1 ≠ d := by
          intro he
          exact hdnot (he ▸ List.mem_map_of_mem Prod.fst hp)
        have hb : (p.1 == d) = false := beq_eq_false_iff_ne.mpr hpd
        simp [List.lookup, hb]
      calc commonRows ((d, x) :: s') ((d, y) :: t')
          = (x, y) :: s'.filterMap
              (fun p => (((d, y) :: t').lookup p.1).map (fun z => (p.2, z))) := by
            simp [commonRows, List.filterMap_cons, hhead]
        _ = (x, y) :: commonRows s' t' := by rw [htail]; rfl
        _ = (x, y) :: ((s'.map Prod.snd).zip (t'.map Prod.snd)) := by rw [ih t' ht' hnd']
        _ = (((d, x) :: s').map Prod.snd).zip (((d, y) :: t').map Prod.snd) := by simp

/-- On a row-wise pairing of two equally long columns with at least two
rows, the joined sample covariance is defined and is the direct
covariance of the two columns. -/
theorem sampleCov_zip (xs ys : List Rat) (hlen : xs.length = ys.length)
    (h2 : 2 ≤ xs.length) :
    sampleCov (xs.zip ys) = some (sampleCovVals xs ys) := by
  have hfst : (xs.zip ys).map Prod.fst = xs := List.map_fst_zip xs ys (le_of_eq hlen)
  have hsnd : (xs.zip ys).map Prod.snd = ys := List.map_snd_zip xs ys (le_of_eq hlen.symm)
  have hl : (xs.zip ys).length = xs.length := by
    rw [List.length_zip, hlen, min_self]
  rw [sampleCov, hfst, hsnd, hl, if_pos h2, sampleCovVals]

/-- Folding NaN-propagating weighted additions over values that are all
numeric produces the numeric weighted sum. -/
theorem foldl_oAdd_some (w : Rat) (f : Nat → Option Rat) (g : Nat → Rat) :
    ∀ l : List Nat, (∀ i ∈ l, f i = some (g i)) →
      ∀ a : Rat, l.foldl (fun acc i => oAdd acc (oSmul w (f i))) (some a) =
        some (a + (l.map (fun i => w * g i)).sum) := by
  intro l
  induction l with
  | nil =>
    intro _ a
    simp
  | cons i l ih =>
    intro h a
    rw [List.foldl_cons, h i (List.mem_cons_self i l)]
    have hstep : oAdd (some a) (oSmul w (some (g i))) = some (a + w * g i) := rfl
    rw [hstep, ih (fun j hj => h j (List.mem_cons_of_mem _ hj)) (a + w * g i),
      List.map_cons, List.sum_cons]
    congr 1
    ring

/-- Each entry of the joined pairwise covariance matrix refines the
direct covariance of the aligned value columns. -/
theorem cov_matrix_aligned
    (ss : List (List (Int × Rat))) (ds : List Int)
    (hds : ∀ s ∈ ss, s.map Prod.fst = ds)
    (hnd : ds.Nodup) (hlen : 2 ≤ ds.length)
    (i j : Nat) (hi : i < ss.length) (hj : j < ss.length) :
    cov_matrix ss i j =
      some (cov_spec (ss.map (fun s => s.map Prod.snd)) i j) := by
  have hgi : ss.getD i [] = ss[i] := List.getD_eq_getElem ss [] hi
  have hgj : ss.getD j [] = ss[j] := List.getD_eq_getElem ss [] hj
  have hdi : ss[i].map Prod.fst = ds := hds _ (List.getElem_mem hi)
  have hdj : ss[j].map Prod.fst = ds := hds _ (List.getElem_mem hj)
  have hli : ss[i].length = ds.length := by
    rw [← hdi, List.length_map]
  have hlj : ss[j].length = ds.length := by
    rw [← hdj, List.length_map]
  have hci : (ss.map (fun s => s.map Prod.snd)).getD i [] = ss[i].map Prod.snd := by
    have hi' : i < (ss.map (fun s => s.map Prod.snd)).length := by
      rw [List.length_map]; exact hi
    rw [List.getD_eq_getElem _ [] hi', List.getElem_map]
  have hcj : (ss.map (fun s => s.map Prod.snd)).getD j [] = ss[j].map Prod.snd := by
    have hj' : j < (ss.map (fun s => s.map Prod.snd)).length := by
      rw [List.length_map]; exact hj
    rw [List.getD_eq_getElem _ [] hj', List.getElem_map]
  rw [cov_matrix, hgi, hgj,
    commonRows_aligned ss[i] ss[j] (hdi.trans hdj.symm) (hdi ▸ hnd),
    sampleCov_zip _ _ (by rw [List.length_map, List.length_map, hli, hlj])
      (by rw [List.length_map, hli]; exact hlen),
    cov_spec, hci, hcj]

/-- C6 (confirmed): for N ≥ 1 pairs whose spread series are aligned on a
common duplicate-free date axis with at least two dates, the code's
portfolio variance `wᵀ·Cov·w` is numeric (no NaN) and equals the spec's
quadratic form over the direct covariance matrix of the value columns
with equal weights 1/N, so the reported volatility
`sqrt(port_variance) * sqrt 252 * 100` equals the spec's
`sqrt(wᵀ·Cov·w) * sqrt 252 * 100`. -/
theorem port_variance_aligned
    (ss : List (List (Int × Rat))) (ds : List Int)
    (hN : 1 ≤ ss.length)
    (hds : ∀ s ∈ ss, s.map Prod.fst = ds)
    (hnd : ds.Nodup) (hlen : 2 ≤ ds.length) :
    ∃ v : Rat, port_variance ss = some v ∧
      v = port_variance_spec (ss.map (fun s => s.map Prod.snd)) ∧
      Real.sqrt (v : Real) * Real.sqrt 252 * 100 =
        Real.sqrt ((port_variance_spec (ss.map (fun s => s.map Prod.snd)) : Rat) : Real) *
          Real.sqrt 252 * 100 := by
  have hcols : (ss.map (fun s => s.map Prod.snd)).length = ss.length :=
    List.length_map _ _
  have hinner : ∀ i ∈ List.range ss.length,
      (List.range ss.length).foldl
        (fun acc2 j => oAdd acc2 (oSmul (1 / (ss.length : Rat)) (cov_matrix ss i j)))
        (some 0) =
      some (0 + ((List.range ss.length).map
        (fun j => (1 / (ss.length : Rat)) *
          cov_spec (ss.map (fun s => s.map Prod.snd)) i j)).sum) := by
    intro i hi
    refine foldl_oAdd_some _ _ _ (List.range ss.length) (fun j hj => ?_) 0
    exact cov_matrix_aligned ss ds hds hnd hlen i j
      (List.mem_range.mp hi) (List.mem_range.mp hj)
  have houter : port_variance ss =
      some (0 + ((List.range ss.length).map (fun i =>
        (1 / (ss.length : Rat)) *
          (0 + ((List.range ss.length).map
            (fun j => (1 / (ss.length : Rat)) *
              cov_spec (ss.map (fun s => s.map Prod.snd)) i j)).sum))).sum) := by
    rw [port_variance]
    exact foldl_oAdd_some _ _ _ (List.range ss.length) hinner 0
  have hval : (0 : Rat) + ((List.range ss.length).map (fun i =>
      (1 / (ss.length : Rat)) *
        (0 + ((List.range ss.length).map
          (fun j => (1 / (ss.length : Rat)) *
            cov_spec (ss.map (fun s => s.map Prod.snd)) i j)).sum))).sum =
      port_variance_spec (ss.map (fun s => s.map Prod.snd)) := by
    rw [port_variance_spec, hcols]
    simp only [zero_add]
  exact ⟨_, houter, hval, by rw [hval]⟩

/-- Witness for C6: two spread series aligned on the dates {0, 1}. -/
theorem port_variance_aligned_witness :
    ∃ v : Rat, port_variance [[(0, 0), (1, 1)], [(0, 1), (1, 0)]] = some v ∧
      v = port_variance_spec ([[(0, 0), (1, 1)], [(0, 1), (1, 0)]].map
        (fun s => s.map Prod.snd)) ∧
      Real.sqrt (v : Real) * Real.sqrt 252 * 100 =
        Real.sqrt ((port_variance_spec ([[(0, 0), (1, 1)], [(0, 1), (1, 0)]].map
          (fun s => s.map Prod.snd)) : Rat) : Real) * Real.sqrt 252 * 100 :=
  port_variance_aligned [[(0, 0), (1, 1)], [(0, 1), (1, 0)]] [0, 1]
    (by decide) (by decide) (by decide) (by decide)

/-- C7 (code bug): two pairs whose spread series live on disjoint dates
({0, 1} and {2, 3}).  The off-diagonal covariance entries have an empty
pairwise-complete sample, so `DataFrame.cov` yields NaN there, and the
dot products propagate it: the code RETURNS NaN (`none`) as the
portfolio variance — later rendered as a `nan%` table cell — instead of
failing with `InsufficientOverlap` as the claim requires. -/
theorem port_variance_disjoint_is_nan :
    port_variance [[(0, 1), (1, 2)], [(2, 1), (3, 3)]] = none ∧
    cov_matrix [[(0, 1), (1, 2)], [(2, 1), (3, 3)]] 0 1 = none := by
  with_unfolding_all decide

end StockPairReturns
